import Mathlib

/-!
Shallow embedding of the Anchor program `lp_program`
(src/programs/lp-2/src/lib.rs) — an escrow-backed freelance job
marketplace: a client posts a job and locks funds in a derived escrow
vault, freelancers apply, the client approves one application, the
freelancer submits work, and the client either approves the submission
(releasing the escrow to the freelancer) or rejects it (allowing
resubmission); the client may cancel an unfilled job for a refund.

Modelling conventions:
* `Pubkey` is `Nat` (abstract account identity).
* `u64` quantities are `Nat`; the stats counters, which the source
  increments with `+=` on `u64`, are wrapped modulo `2^64`; lamport
  balances are `Nat` and every `system_program::transfer` is modelled
  with its real-runtime sufficiency check (failure aborts the call).
* Each instruction handler is a function `World → ... → Option Err × World`
  returning the error (if any) together with the state *at the point of
  failure* — i.e. before the runtime's transaction rollback.  The
  committed (ledger) semantics `runOp` discards the state on failure,
  exactly as a failed Solana transaction has no effect.
* Anchor `#[derive(Accounts)]` constraints execute before the handler
  body; they are embedded first, in account-struct field order.  Where
  the body re-checks the same condition with the same error, the check
  appears once.
* The `events` field of `World` is a ghost log recording, in particular,
  every outflow of the escrow vault (release to a freelancer, refund to
  the client), used to state fund-custody properties.
* Out of scope (per the system's own boundary): rent charged by Anchor
  `init` for the record accounts themselves, PDA derivation mechanics
  (the world is per-job, with its single derived vault), and signature
  verification (each call carries its already-authenticated caller).
-/

set_option maxHeartbeats 1000000

namespace LP2

abbrev Pubkey := Nat

def U64MOD : Nat := 18446744073709551616

/-- `u64` wrapping addition result, `n % 2^64`. -/
def wrap64 (n : Nat) : Nat := n % U64MOD

/-- The program's `#[error_code] enum ErrorCode` (src lines 554-586). -/
inductive ErrorCode
  | Unauthorized
  | JobAlreadyFilled
  | ApplicationNotApproved
  | WorkNotCompleted
  | InvalidDates
  | InvalidInput
  | InvalidAccount
  | InvalidAmount
  | JobCancelled
  | JobAlreadyCancelled
  | WorkAlreadySubmitted
  | ApplicationAlreadyApproved
  | WorkAlreadyApproved
  | WorkAlreadyRejected
  | InsufficientEscrowBalance
  deriving DecidableEq

/-- A call outcome: a typed program error, or a runtime-level failure
(account already initialized / not found, insufficient lamports for a
system transfer). -/
inductive Err
  | ec (e : ErrorCode)
  | accountNotFound
  | accountInUse
  | insufficientFunds
  deriving DecidableEq

/-- `#[account] pub struct JobPost` (src lines 325-340). -/
structure JobPost where
  client : Pubkey
  title : String
  description : String
  amount : Nat
  is_filled : Bool
  cancelled : Bool
  start_date : Int
  end_date : Int
  escrow_bump : Nat
  freelancer : Option Pubkey
  deriving DecidableEq

/-- `#[account] pub struct Application` (src lines 342-360). -/
structure Application where
  applicant : Pubkey
  job_post : Pubkey
  resume_link : String
  submission_link : String
  narration : String
  client_review : String
  approved : Bool
  submitted : Bool
  completed : Bool
  rejected : Bool
  expected_end_date : Int
  deriving DecidableEq

/-- `#[account] pub struct UserStats` (src lines 362-370). -/
structure UserStats where
  total_gigs_posted : Nat
  total_revenue_earned : Nat
  monthly_gigs : Nat
  monthly_revenue : Nat
  last_updated_month : Nat
  deriving DecidableEq

/-- Ghost event log entries (one per successful state-changing call;
`released`/`refunded` mark the two escrow outflows). -/
inductive Event
  | posted (client : Pubkey) (amount : Nat)
  | applied (freelancer : Pubkey)
  | applicationApproved (applicant : Pubkey)
  | workSubmitted (applicant : Pubkey)
  | released (recipient : Pubkey) (amount : Nat)
  | refunded (recipient : Pubkey) (amount : Nat)
  deriving DecidableEq

/-- The on-ledger state relevant to one job: its `JobPost` record, the
application records keyed by applicant, the job's escrow vault balance,
wallet balances, per-user stats records, and the ghost event log. -/
structure World where
  jobKey : Pubkey
  job : JobPost
  apps : Pubkey → Option Application
  escrow : Nat
  balances : Pubkey → Nat
  stats : Pubkey → UserStats
  events : List Event

/-- Pointwise function update (account record write on the ledger). -/
def updFun {α : Type} (f : Pubkey → α) (k : Pubkey) (v : α) : Pubkey → α :=
  fun k' => if k' = k then v else f k'

/-- `(now / 2_592_000) % 12 + 1` with Rust `i64` (truncated) division and
remainder, then `as u8` (two's-complement truncation to 8 bits) — the
month computation of lines 80 and 239. -/
def currentMonthU8 (now : Int) : Nat :=
  (Int.emod ((Int.tmod (Int.tdiv now 2592000) 12) + 1) 256).toNat

/-- The rolling-month reset applied to a `UserStats` record before its
counters are bumped (lines 82-86 and 241-245). -/
def rollMonth (s : UserStats) (m : Nat) : UserStats :=
  if s.last_updated_month ≠ m then
    { s with monthly_gigs := 0, monthly_revenue := 0, last_updated_month := m }
  else s

/-- `initialize_job_post` (src lines 13-99).  Creates the `JobPost`
record and the escrow vault from scratch: the escrow system account is
created with `max(rentMin, amount)` lamports taken from the client
(line 49's `Rent::get()?.minimum_balance(0).max(amount)`), and then
`amount` more lamports are transferred from the client into it
(line 74).  Returns the error (if any) and the created world (if the
call got far enough to create one; `none` on the typed validation
failures, which all precede every mutation). -/
def post_job (clientKey jobKey : Pubkey) (bal : Pubkey → Nat)
    (st : Pubkey → UserStats) (title description : String) (amount : Nat)
    (start_date end_date now : Int) (rentMin : Nat) :
    Option Err × Option World :=
  if title = "" then (some (.ec .InvalidInput), none)
  else if description = "" then (some (.ec .InvalidInput), none)
  else if amount = 0 then (some (.ec .InvalidAmount), none)
  else if end_date < start_date then (some (.ec .InvalidDates), none)
  else if start_date < now then (some (.ec .InvalidDates), none)
  else
    let job : JobPost :=
      { client := clientKey, title := title, description := description,
        amount := amount, is_filled := false, cancelled := false,
        start_date := start_date, end_date := end_date,
        escrow_bump := 0, freelancer := none }
    let lamports := max rentMin amount
    if bal clientKey < lamports then
      (some .insufficientFunds,
       some ⟨jobKey, job, fun _ => none, 0, bal, st, []⟩)
    else
      let bal1 := updFun bal clientKey (bal clientKey - lamports)
      if bal1 clientKey < amount then
        (some .insufficientFunds,
         some ⟨jobKey, job, fun _ => none, lamports, bal1, st, []⟩)
      else
        let bal2 := updFun bal1 clientKey (bal1 clientKey - amount)
        let m := currentMonthU8 now
        let s1 := rollMonth (st clientKey) m
        let s2 := { s1 with
          total_gigs_posted := wrap64 (s1.total_gigs_posted + 1),
          monthly_gigs := wrap64 (s1.monthly_gigs + 1) }
        (none,
         some ⟨jobKey, job, fun _ => none, lamports + amount, bal2,
               updFun st clientKey s2, [Event.posted clientKey amount]⟩)

/-- `apply_to_job` (src lines 102-131).  Anchor `init` of the
application PDA fails when an application for this (job, freelancer)
pair already exists. -/
def apply_to_job (w : World) (freelancer : Pubkey) (resume_link : String)
    (expected_end_date : Int) : Option Err × World :=
  if (w.apps freelancer).isSome then (some .accountInUse, w)
  else if resume_link = "" then (some (.ec .InvalidInput), w)
  else if expected_end_date < 0 then (some (.ec .InvalidDates), w)
  else if w.job.is_filled then (some (.ec .JobAlreadyFilled), w)
  else if w.job.cancelled then (some (.ec .JobCancelled), w)
  else
    let app : Application :=
      { applicant := freelancer, job_post := w.jobKey,
        resume_link := resume_link, submission_link := "",
        narration := "", client_review := "",
        approved := false, submitted := false, completed := false,
        rejected := false, expected_end_date := expected_end_date }
    (none, { w with apps := updFun w.apps freelancer (some app),
                    events := w.events ++ [Event.applied freelancer] })

/-- `approve_application` (src lines 134-156), including the
`ApproveApplication` account constraints (lines 425-441), which run
first in account order: the application's job binding (`InvalidAccount`),
then the client match (`Unauthorized`); the body re-checks both with the
same errors and then checks `is_filled`, `cancelled`, `approved`. -/
def approve_application (w : World) (caller applicant : Pubkey) :
    Option Err × World :=
  match w.apps applicant with
  | none => (some .accountNotFound, w)
  | some app =>
    if app.job_post = w.jobKey then
      if w.job.client = caller then
        if w.job.is_filled then (some (.ec .JobAlreadyFilled), w)
        else if w.job.cancelled then (some (.ec .JobCancelled), w)
        else if app.approved then
          (some (.ec .ApplicationAlreadyApproved), w)
        else
          (none, { w with
            job := { w.job with is_filled := true,
                                freelancer := some app.applicant },
            apps := updFun w.apps applicant
              (some { app with approved := true }),
            events := w.events ++ [Event.applicationApproved app.applicant] })
      else (some (.ec .Unauthorized), w)
    else (some (.ec .InvalidAccount), w)

/-- `submit_work` (src lines 159-184), including the `SubmitWork`
account constraints (lines 443-456): applicant match (`Unauthorized`)
then job binding (`InvalidAccount`), before the body's input checks. -/
def submit_work (w : World) (caller applicant : Pubkey)
    (submission_link narration : String) : Option Err × World :=
  match w.apps applicant with
  | none => (some .accountNotFound, w)
  | some app =>
    if app.applicant = caller then
      if app.job_post = w.jobKey then
        if submission_link = "" then (some (.ec .InvalidInput), w)
        else if narration = "" then (some (.ec .InvalidInput), w)
        else if app.approved then
          if app.completed then (some (.ec .WorkAlreadyApproved), w)
          else
            (none, { w with
              apps := updFun w.apps applicant (some { app with
                submission_link := submission_link, narration := narration,
                submitted := true, rejected := false }),
              events := w.events ++ [Event.workSubmitted app.applicant] })
        else (some (.ec .ApplicationNotApproved), w)
      else (some (.ec .InvalidAccount), w)
    else (some (.ec .Unauthorized), w)

/-- The mutation tail of `approve_submission` (src lines 216-256), run
once every validation has passed: set the review and `completed`, move
`job_post.amount` lamports from the escrow to the passed freelancer
account, and update that account's stats record. -/
def approve_submission_commit (w : World) (applicant : Pubkey)
    (app : Application) (recipient : Pubkey) (client_review : String)
    (now : Int) : Option Err × World :=
  let w1 := { w with
    apps := updFun w.apps applicant (some { app with
      client_review := client_review, completed := true }) }
  let w2 := { w1 with
    escrow := w1.escrow - w.job.amount,
    balances := updFun w1.balances recipient
      (w1.balances recipient + w.job.amount),
    events := w1.events ++ [Event.released recipient w.job.amount] }
  let m := currentMonthU8 now
  let s1 := rollMonth (w2.stats recipient) m
  let s2 := { s1 with
    total_revenue_earned := wrap64 (s1.total_revenue_earned + w.job.amount),
    monthly_revenue := wrap64 (s1.monthly_revenue + w.job.amount),
    monthly_gigs := wrap64 (s1.monthly_gigs + 1) }
  (none, { w2 with stats := updFun w2.stats recipient s2 })

/-- `approve_submission` (src lines 187-257), including the
`ApproveSubmission` account constraints (lines 458-497).  `recipient`
is the `freelancer` account passed in the context — the transfer target
and the key of the stats record that is updated.  The body sets the
review and `completed` *before* the escrow transfer and the stats
update, but every fallible step precedes the first mutation (the
escrow balance check at line 211 makes the transfer itself
infallible). -/
def approve_submission (w : World) (caller applicant recipient : Pubkey)
    (client_review : String) (now : Int) : Option Err × World :=
  match w.apps applicant with
  | none => (some .accountNotFound, w)
  | some app =>
    if app.job_post = w.jobKey then
      if w.job.client = caller then
        if app.submitted then
          if app.completed then (some (.ec .WorkAlreadyApproved), w)
          else if w.job.freelancer = some app.applicant then
            if w.escrow < w.job.amount then
              (some (.ec .InsufficientEscrowBalance), w)
            else approve_submission_commit w applicant app recipient
              client_review now
          else (some (.ec .Unauthorized), w)
        else (some (.ec .WorkNotCompleted), w)
      else (some (.ec .Unauthorized), w)
    else (some (.ec .InvalidAccount), w)

/-- `reject_submission` (src lines 259-276), including the
`RejectSubmission` account constraints (lines 521-538): the
application's job binding (`InvalidAccount`), then on the job account
the client match (`Unauthorized`) and the bound-freelancer match
`job_post.freelancer == Some(application.applicant)` (`Unauthorized`,
line 532) — the latter appears only as a constraint, never in the
body. -/
def reject_submission (w : World) (caller applicant : Pubkey)
    (client_review : String) : Option Err × World :=
  match w.apps applicant with
  | none => (some .accountNotFound, w)
  | some app =>
    if app.job_post = w.jobKey then
      if w.job.client = caller then
        if w.job.freelancer = some app.applicant then
          if app.completed then (some (.ec .WorkAlreadyApproved), w)
          else if app.submitted then
            (none, { w with
              apps := updFun w.apps applicant (some { app with
                client_review := client_review, rejected := true,
                submitted := false }) })
          else (some (.ec .WorkNotCompleted), w)
        else (some (.ec .Unauthorized), w)
      else (some (.ec .Unauthorized), w)
    else (some (.ec .InvalidAccount), w)

/-- `cancel_job` (src lines 279-308), including the `CancelJob` client
constraint (line 503).  The body sets `cancelled = true` *before* the
refund transfer (line 289 precedes line 304), so the transfer's
lamport-sufficiency failure is the one spot where a mutation precedes a
(runtime) failure — visible in the pre-rollback state this function
returns. -/
def cancel_job (w : World) (caller : Pubkey) : Option Err × World :=
  if w.job.client = caller then
    if w.job.is_filled then (some (.ec .JobAlreadyFilled), w)
    else if w.job.cancelled then (some (.ec .JobAlreadyCancelled), w)
    else
      let w1 := { w with job := { w.job with cancelled := true } }
      if w1.escrow < w1.job.amount then (some .insufficientFunds, w1)
      else
        (none, { w1 with
          escrow := w1.escrow - w1.job.amount,
          balances := updFun w1.balances caller
            (w1.balances caller + w1.job.amount),
          events := w1.events ++ [Event.refunded caller w1.job.amount] })
  else (some (.ec .Unauthorized), w)

/-- One attempted instruction call against an existing job's world:
the caller identity plus the accounts and arguments it passes. -/
inductive Op
  | applyJob (freelancer : Pubkey) (resume_link : String)
      (expected_end_date : Int)
  | approveApp (caller applicant : Pubkey)
  | submitWork (caller applicant : Pubkey) (submission_link narration : String)
  | approveSub (caller applicant recipient : Pubkey)
      (client_review : String) (now : Int)
  | rejectSub (caller applicant : Pubkey) (client_review : String)
  | cancelJob (caller : Pubkey)

/-- Raw (pre-rollback) semantics of one call: the error, if any, and
the state at the point the call exited. -/
def runOpRaw (w : World) : Op → Option Err × World
  | .applyJob f r e => apply_to_job w f r e
  | .approveApp c a => approve_application w c a
  | .submitWork c a l n => submit_work w c a l n
  | .approveSub c a rcp rev now => approve_submission w c a rcp rev now
  | .rejectSub c a rev => reject_submission w c a rev
  | .cancelJob c => cancel_job w c

/-- Committed (ledger) semantics: a failed transaction has no effect. -/
def runOp (w : World) (op : Op) : Except Err World :=
  match runOpRaw w op with
  | (none, w') => .ok w'
  | (some e, _) => .error e

/-- Worlds obtained by a successful `initialize_job_post` call. -/
def PostedWorld (w : World) : Prop :=
  ∃ ck jk bal st t d a sd ed now rm,
    (post_job ck jk bal st t d a sd ed now rm).1 = none ∧
    (post_job ck jk bal st t d a sd ed now rm).2 = some w

/-- Reachability by successful instruction calls. -/
inductive Reachable : World → World → Prop
  | refl (w : World) : Reachable w w
  | step {w₁ w₂ w₃ : World} {op : Op} :
      Reachable w₁ w₂ → runOp w₂ op = .ok w₃ → Reachable w₁ w₃

/-- Number of escrow releases (to a freelancer) in the ghost log. -/
def releaseCount (es : List Event) : Nat :=
  (es.filter (fun e => match e with | .released _ _ => true | _ => false)).length

/-- Number of escrow refunds (to the client) in the ghost log. -/
def refundCount (es : List Event) : Nat :=
  (es.filter (fun e => match e with | .refunded _ _ => true | _ => false)).length

/-- The state invariant of a job's world: applications are well-keyed,
the status flags respect the lifecycle (`submitted ⇒ approved`,
`completed ⇒ submitted ∧ approved ∧ ¬rejected`, never
`submitted ∧ rejected`), an approved application is the one bound as
the job's freelancer of a filled job, a cancelled job is unfilled and
unbound, and the ghost outflow log matches the flags: exactly one
refund iff cancelled, exactly one release iff some application is
completed. -/
structure Inv (w : World) : Prop where
  appKeys : ∀ a app, w.apps a = some app →
    app.applicant = a ∧ app.job_post = w.jobKey
  subApproved : ∀ a app, w.apps a = some app → app.submitted = true →
    app.approved = true
  subNotRej : ∀ a app, w.apps a = some app → app.submitted = true →
    app.rejected = false
  compSub : ∀ a app, w.apps a = some app → app.completed = true →
    app.submitted = true ∧ app.approved = true ∧ app.rejected = false
  approvedBound : ∀ a app, w.apps a = some app → app.approved = true →
    w.job.freelancer = some a ∧ w.job.is_filled = true
  freelancerFilled : ∀ f, w.job.freelancer = some f →
    w.job.is_filled = true
  cancelledOpen : w.job.cancelled = true →
    w.job.is_filled = false ∧ w.job.freelancer = none
  refundCnt : refundCount w.events = if w.job.cancelled then 1 else 0
  releaseZero : (∀ a app, w.apps a = some app → app.completed = false) →
    releaseCount w.events = 0
  releaseOne : ∀ a app, w.apps a = some app → app.completed = true →
    releaseCount w.events = 1

/-! A concrete scenario

Client `1` posts job `100` for 1000 lamports (`start = 10`, `end = 20`,
current time `0`, rent-exempt minimum 0); freelancer `2` applies, is
approved, submits; the client rejects, the freelancer resubmits, and
the client approves the submission.  All used as concrete instances of
the theorems above. -/

def bal0 : Pubkey → Nat := fun _ => 10000

def st0 : Pubkey → UserStats := fun _ => ⟨0, 0, 0, 0, 0⟩

def wDefault : World :=
  ⟨0, ⟨0, "", "", 0, false, false, 0, 0, 0, none⟩, fun _ => none, 0,
   bal0, st0, []⟩

/-- The world created by the concrete `post` call. -/
def w0C : World :=
  ((post_job 1 100 bal0 st0 "t" "d" 1000 10 20 0 0).2).getD wDefault

/-- After freelancer `2` applies. -/
def wA : World := (runOpRaw w0C (.applyJob 2 "r" 5)).2

/-- After the client approves `2`'s application. -/
def wB : World := (runOpRaw wA (.approveApp 1 2)).2

/-- After `2` submits work. -/
def wS : World := (runOpRaw wB (.submitWork 2 2 "s" "n")).2

/-- `2`'s application as stored in `wS`. -/
def appS : Application := ⟨2, 100, "r", "s", "n", "", true, true, false, false, 5⟩

/-- After the client rejects the submission. -/
def wR : World := (runOpRaw wS (.rejectSub 1 2 "bad")).2

/-- After `2` resubmits. -/
def wS2 : World := (runOpRaw wR (.submitWork 2 2 "s2" "n2")).2

/-- After the client approves the resubmission (escrow released). -/
def wF : World := (runOpRaw wS2 (.approveSub 1 2 2 "ok" 0)).2

/-- After the client approves the first submission directly from `wS`. -/
def wAS : World := (runOpRaw wS (.approveSub 1 2 2 "ok" 0)).2

/-- After the client resubmits over a pending submission from `wS`. -/
def wResub : World := (runOpRaw wS (.submitWork 2 2 "s2" "n2")).2

/-- After the client cancels the freshly posted job. -/
def wCan : World := (runOpRaw w0C (.cancelJob 1)).2

/-- `2`'s application as stored in `wAS`. -/
def appF : Application := ⟨2, 100, "r", "s", "n", "ok", true, true, true, false, 5⟩

/-- A job world whose bound freelancer is `2` but holding a submitted,
uncompleted application from `3`. -/
def w10 : World :=
  ⟨100, ⟨1, "t", "d", 1000, true, false, 10, 20, 0, some 2⟩,
   fun k => if k = 3 then
     some ⟨3, 100, "r", "s", "n", "", false, true, false, false, 5⟩
   else none,
   2000, bal0, st0, []⟩

/-! Basic lemmas about the semantics -/

theorem updFun_same {α : Type} (f : Pubkey → α) (k : Pubkey) (v : α) :
    updFun f k v k = v := by
  simp [updFun]

theorem updFun_eval {α : Type} (f : Pubkey → α) (k k' : Pubkey) (v : α) :
    updFun f k v k' = if k' = k then v else f k' := rfl

theorem runOp_ok_of_raw {w w' : World} {op : Op}
    (h : runOpRaw w op = (none, w')) : runOp w op = .ok w' := by
  simp [runOp, h]

theorem runOp_error_of_raw {w w' : World} {op : Op} {e : Err}
    (h : runOpRaw w op = (some e, w')) : runOp w op = .error e := by
  simp [runOp, h]

theorem runOp_ok_iff {w w' : World} {op : Op} :
    runOp w op = .ok w' ↔ runOpRaw w op = (none, w') := by
  unfold runOp
  cases hr : runOpRaw w op with
  | mk e ww =>
    cases e with
    | none => simp
    | some err => simp

/-- Success inversion for `apply_to_job`. -/
theorem applyJob_ok {w w' : World} {f : Pubkey} {r : String} {e : Int}
    (h : runOp w (.applyJob f r e) = .ok w') :
    w.apps f = none ∧ r ≠ "" ∧ 0 ≤ e ∧
    w.job.is_filled = false ∧ w.job.cancelled = false ∧
    w' = { w with
      apps := updFun w.apps f (some
        { applicant := f, job_post := w.jobKey, resume_link := r,
          submission_link := "", narration := "", client_review := "",
          approved := false, submitted := false, completed := false,
          rejected := false, expected_end_date := e }),
      events := w.events ++ [Event.applied f] } := by
  rw [runOp_ok_iff] at h
  simp only [runOpRaw, apply_to_job] at h
  split_ifs at h with h1 h2 h3 h4 h5 <;> simp_all

/-- Success inversion for `approve_application`. -/
theorem approveApp_ok {w w' : World} {c a : Pubkey}
    (h : runOp w (.approveApp c a) = .ok w') :
    ∃ app, w.apps a = some app ∧ app.job_post = w.jobKey ∧
      w.job.client = c ∧ w.job.is_filled = false ∧ w.job.cancelled = false ∧
      app.approved = false ∧
      w' = { w with
        job := { w.job with is_filled := true,
                            freelancer := some app.applicant },
        apps := updFun w.apps a (some { app with approved := true }),
        events := w.events ++ [Event.applicationApproved app.applicant] } := by
  rw [runOp_ok_iff] at h
  simp only [runOpRaw, approve_application] at h
  cases happ : w.apps a with
  | none => rw [happ] at h; simp at h
  | some app =>
    simp only [happ] at h
    split_ifs at h with h1 h2 h3 h4 h5 <;> simp_all

/-- Success inversion for `submit_work`. -/
theorem submitWork_ok {w w' : World} {c a : Pubkey} {l n : String}
    (h : runOp w (.submitWork c a l n) = .ok w') :
    ∃ app, w.apps a = some app ∧ app.applicant = c ∧
      app.job_post = w.jobKey ∧ l ≠ "" ∧ n ≠ "" ∧
      app.approved = true ∧ app.completed = false ∧
      w' = { w with
        apps := updFun w.apps a (some { app with
          submission_link := l, narration := n,
          submitted := true, rejected := false }),
        events := w.events ++ [Event.workSubmitted app.applicant] } := by
  rw [runOp_ok_iff] at h
  simp only [runOpRaw, submit_work] at h
  cases happ : w.apps a with
  | none => rw [happ] at h; simp at h
  | some app =>
    simp only [happ] at h
    split_ifs at h with h1 h2 h3 h4 h5 h6 <;> simp_all

/-- Success inversion for `approve_submission`. -/
theorem approveSub_ok {w w' : World} {c a rcp : Pubkey} {rev : String}
    {now : Int} (h : runOp w (.approveSub c a rcp rev now) = .ok w') :
    ∃ app, w.apps a = some app ∧ app.job_post = w.jobKey ∧
      w.job.client = c ∧ app.submitted = true ∧ app.completed = false ∧
      w.job.freelancer = some app.applicant ∧ w.job.amount ≤ w.escrow ∧
      w' = (approve_submission_commit w a app rcp rev now).2 := by
  rw [runOp_ok_iff] at h
  simp only [runOpRaw, approve_submission] at h
  cases happ : w.apps a with
  | none => rw [happ] at h; simp at h
  | some app =>
    simp only [happ] at h
    split_ifs at h with h1 h2 h3 h4 h5 h6 <;>
      simp_all [approve_submission_commit]

/-- Success inversion for `reject_submission`. -/
theorem rejectSub_ok {w w' : World} {c a : Pubkey} {rev : String}
    (h : runOp w (.rejectSub c a rev) = .ok w') :
    ∃ app, w.apps a = some app ∧ app.job_post = w.jobKey ∧
      w.job.client = c ∧ w.job.freelancer = some app.applicant ∧
      app.completed = false ∧ app.submitted = true ∧
      w' = { w with
        apps := updFun w.apps a (some { app with
          client_review := rev, rejected := true, submitted := false }) } := by
  rw [runOp_ok_iff] at h
  simp only [runOpRaw, reject_submission] at h
  cases happ : w.apps a with
  | none => rw [happ] at h; simp at h
  | some app =>
    simp only [happ] at h
    split_ifs at h with h1 h2 h3 h4 h5 <;> simp_all

/-- Success inversion for `cancel_job`. -/
theorem cancelJob_ok {w w' : World} {c : Pubkey}
    (h : runOp w (.cancelJob c) = .ok w') :
    w.job.client = c ∧ w.job.is_filled = false ∧ w.job.cancelled = false ∧
    w.job.amount ≤ w.escrow ∧
    w' = { w with
      job := { w.job with cancelled := true },
      escrow := w.escrow - w.job.amount,
      balances := updFun w.balances c (w.balances c + w.job.amount),
      events := w.events ++ [Event.refunded c w.job.amount] } := by
  rw [runOp_ok_iff] at h
  simp only [runOpRaw, cancel_job] at h
  split_ifs at h with h1 h2 h3 h4 <;> simp_all

/-- Success inversion for `post_job`: validation facts and the exact
created world. -/
theorem post_ok {ck jk : Pubkey} {bal : Pubkey → Nat}
    {st : Pubkey → UserStats} {t d : String} {amt : Nat} {sd ed now : Int}
    {rm : Nat} {w : World}
    (h1 : (post_job ck jk bal st t d amt sd ed now rm).1 = none)
    (h2 : (post_job ck jk bal st t d amt sd ed now rm).2 = some w) :
    t ≠ "" ∧ d ≠ "" ∧ 0 < amt ∧ sd ≤ ed ∧ now ≤ sd ∧
    max rm amt + amt ≤ bal ck ∧
    w.jobKey = jk ∧
    w.job = { client := ck, title := t, description := d, amount := amt,
              is_filled := false, cancelled := false, start_date := sd,
              end_date := ed, escrow_bump := 0, freelancer := none } ∧
    w.apps = (fun _ => none) ∧
    w.escrow = max rm amt + amt ∧
    w.balances ck = bal ck - (max rm amt + amt) ∧
    (∀ k, k ≠ ck → w.balances k = bal k) ∧
    w.events = [Event.posted ck amt] := by
  simp only [post_job] at h1 h2
  split_ifs at h1 h2 with g1 g2 g3 g4 g5 g6 g7 <;> try simp at h1
  simp only [updFun, if_pos] at g7
  injection h2 with h2
  subst h2
  refine ⟨g1, g2, by omega, by omega, by omega, by omega,
    rfl, rfl, rfl, rfl, ?_, ?_, rfl⟩
  · simp [updFun, Nat.sub_sub]
  · intro k hk
    simp [updFun, hk]

/-- Facts preserved by every single successful call: the job identity
fields never change, `cancelled`, `is_filled` and application
`approved`/`completed` flags are monotone, applications are never
deleted, and a completed application's record is frozen. -/
theorem step_mono {w w' : World} {op : Op} (h : runOp w op = .ok w') :
    w'.jobKey = w.jobKey ∧
    w'.job.client = w.job.client ∧
    w'.job.amount = w.job.amount ∧
    (w.job.cancelled = true → w'.job.cancelled = true) ∧
    (w.job.is_filled = true → w'.job.is_filled = true) ∧
    (∀ a app, w.apps a = some app → ∃ app', w'.apps a = some app' ∧
       app'.applicant = app.applicant ∧ app'.job_post = app.job_post ∧
       (app.approved = true → app'.approved = true) ∧
       (app.completed = true → app'.completed = true) ∧
       (app.completed = true →
         app'.submitted = app.submitted ∧ app'.rejected = app.rejected)) := by
  cases op with
  | applyJob f r e =>
    obtain ⟨hnone, -, -, -, -, hw⟩ := applyJob_ok h
    subst hw
    refine ⟨rfl, rfl, rfl, fun hc => hc, fun hf => hf, ?_⟩
    intro a app ha
    refine ⟨app, ?_, rfl, rfl, fun x => x, fun x => x, fun _ => ⟨rfl, rfl⟩⟩
    have haf : a ≠ f := by
      intro e; subst e; rw [hnone] at ha; cases ha
    simp [updFun, haf, ha]
  | approveApp c a =>
    obtain ⟨app, ha, -, -, -, -, -, hw⟩ := approveApp_ok h
    subst hw
    refine ⟨rfl, rfl, rfl, fun hc => hc, fun _ => rfl, ?_⟩
    intro b appb hb
    by_cases hba : b = a
    · subst hba
      rw [ha] at hb
      injection hb with hb
      subst hb
      exact ⟨{ app with approved := true }, by simp [updFun], rfl, rfl,
        fun _ => rfl, fun x => x, fun _ => ⟨rfl, rfl⟩⟩
    · exact ⟨appb, by simp [updFun, hba, hb], rfl, rfl,
        fun x => x, fun x => x, fun _ => ⟨rfl, rfl⟩⟩
  | submitWork c a l n =>
    obtain ⟨app, ha, -, -, -, -, -, hcomp, hw⟩ := submitWork_ok h
    subst hw
    refine ⟨rfl, rfl, rfl, fun hc => hc, fun hf => hf, ?_⟩
    intro b appb hb
    by_cases hba : b = a
    · subst hba
      rw [ha] at hb
      injection hb with hb
      subst hb
      refine ⟨{ app with
          submission_link := l, narration := n,
          submitted := true, rejected := false },
        by simp [updFun], rfl, rfl, fun x => x, ?_, ?_⟩
      · intro hc; rw [hcomp] at hc; exact absurd hc (by simp)
      · intro hc; rw [hcomp] at hc; exact absurd hc (by simp)
    · exact ⟨appb, by simp [updFun, hba, hb], rfl, rfl,
        fun x => x, fun x => x, fun _ => ⟨rfl, rfl⟩⟩
  | approveSub c a rcp rev now =>
    obtain ⟨app, ha, -, -, -, hcomp, -, -, hw⟩ := approveSub_ok h
    subst hw
    refine ⟨rfl, rfl, rfl, fun hc => hc, fun hf => hf, ?_⟩
    intro b appb hb
    by_cases hba : b = a
    · subst hba
      rw [ha] at hb
      injection hb with hb
      subst hb
      refine ⟨{ app with client_review := rev, completed := true },
        by simp [approve_submission_commit, updFun], rfl, rfl,
        fun x => x, fun _ => rfl, ?_⟩
      intro hc; rw [hcomp] at hc; exact absurd hc (by simp)
    · exact ⟨appb, by simp [approve_submission_commit, updFun, hba, hb],
        rfl, rfl,
        fun x => x, fun x => x, fun _ => ⟨rfl, rfl⟩⟩
  | rejectSub c a rev =>
    obtain ⟨app, ha, -, -, -, hcomp, -, hw⟩ := rejectSub_ok h
    subst hw
    refine ⟨rfl, rfl, rfl, fun hc => hc, fun hf => hf, ?_⟩
    intro b appb hb
    by_cases hba : b = a
    · subst hba
      rw [ha] at hb
      injection hb with hb
      subst hb
      refine ⟨{ app with
          client_review := rev, rejected := true, submitted := false },
        by simp [updFun], rfl, rfl, fun x => x, fun x => x, ?_⟩
      intro hc; rw [hcomp] at hc; exact absurd hc (by simp)
    · exact ⟨appb, by simp [updFun, hba, hb], rfl, rfl,
        fun x => x, fun x => x, fun _ => ⟨rfl, rfl⟩⟩
  | cancelJob c =>
    obtain ⟨-, -, -, -, hw⟩ := cancelJob_ok h
    subst hw
    exact ⟨rfl, rfl, rfl, fun _ => rfl, fun hf => hf,
      fun a app ha => ⟨app, ha, rfl, rfl, fun x => x, fun x => x,
        fun _ => ⟨rfl, rfl⟩⟩⟩

/-- Case split on reading an updated map. -/
theorem updFun_cases {α : Type} {f : Pubkey → α} {k b : Pubkey} {v r : α}
    (h : updFun f k v b = r) : (b = k ∧ v = r) ∨ (b ≠ k ∧ f b = r) := by
  by_cases hbk : b = k
  · subst hbk
    simp [updFun] at h
    exact Or.inl ⟨rfl, h⟩
  · simp [updFun, hbk] at h
    exact Or.inr ⟨hbk, h⟩

theorem releaseCount_append (es fs : List Event) :
    releaseCount (es ++ fs) = releaseCount es + releaseCount fs := by
  simp [releaseCount]

theorem refundCount_append (es fs : List Event) :
    refundCount (es ++ fs) = refundCount es + refundCount fs := by
  simp [refundCount]

/-- A freshly posted world satisfies the invariant. -/
theorem inv_posted {w : World} (h : PostedWorld w) : Inv w := by
  obtain ⟨ck, jk, bal, st, t, d, a, sd, ed, now, rm, h1, h2⟩ := h
  obtain ⟨-, -, -, -, -, -, -, hjob, happs, -, -, -, hev⟩ := post_ok h1 h2
  refine ⟨?_, ?_, ?_, ?_, ?_, ?_, ?_, ?_, ?_, ?_⟩
  · intro b app hb; rw [happs] at hb; cases hb
  · intro b app hb; rw [happs] at hb; cases hb
  · intro b app hb; rw [happs] at hb; cases hb
  · intro b app hb; rw [happs] at hb; cases hb
  · intro b app hb; rw [happs] at hb; cases hb
  · intro f hf; rw [hjob] at hf; cases hf
  · intro hc; rw [hjob] at hc; cases hc
  · rw [hev, hjob]; rfl
  · intro _; rw [hev]; rfl
  · intro b app hb; rw [happs] at hb; cases hb

/-- The invariant is preserved by every successful call. -/
theorem inv_step {w w' : World} {op : Op} (hI : Inv w)
    (h : runOp w op = .ok w') : Inv w' := by
  obtain ⟨iK, iSA, iSR, iCS, iAB, iFF, iCO, iRC, iRZ, iRO⟩ := hI
  cases op with
  | applyJob f r e =>
    obtain ⟨hnone, -, -, hfil, hcan, hw⟩ := applyJob_ok h
    subst hw
    refine ⟨?_, ?_, ?_, ?_, ?_, ?_, ?_, ?_, ?_, ?_⟩
    · intro b app hb
      rcases updFun_cases hb with ⟨hbk, hv⟩ | ⟨-, hold⟩
      · subst hbk; injection hv with hv; subst hv; exact ⟨rfl, rfl⟩
      · exact iK b app hold
    · intro b app hb hs
      rcases updFun_cases hb with ⟨hbk, hv⟩ | ⟨-, hold⟩
      · injection hv with hv; subst hv; exact absurd hs (by simp)
      · exact iSA b app hold hs
    · intro b app hb hs
      rcases updFun_cases hb with ⟨hbk, hv⟩ | ⟨-, hold⟩
      · injection hv with hv; subst hv; exact absurd hs (by simp)
      · exact iSR b app hold hs
    · intro b app hb hc
      rcases updFun_cases hb with ⟨hbk, hv⟩ | ⟨-, hold⟩
      · injection hv with hv; subst hv; exact absurd hc (by simp)
      · exact iCS b app hold hc
    · intro b app hb hap
      rcases updFun_cases hb with ⟨hbk, hv⟩ | ⟨-, hold⟩
      · injection hv with hv; subst hv; exact absurd hap (by simp)
      · exact iAB b app hold hap
    · exact iFF
    · exact iCO
    · rw [refundCount_append, iRC]; rfl
    · intro hall
      rw [releaseCount_append]
      have h0 : releaseCount [Event.applied f] = 0 := rfl
      rw [h0, Nat.add_zero]
      apply iRZ
      intro b appb hbb
      by_cases hba : b = f
      · subst hba; rw [hnone] at hbb; cases hbb
      · exact hall b appb (by simp [updFun, hba, hbb])
    · intro b app hb hc
      rw [releaseCount_append]
      have h0 : releaseCount [Event.applied f] = 0 := rfl
      rw [h0, Nat.add_zero]
      rcases updFun_cases hb with ⟨hbk, hv⟩ | ⟨-, hold⟩
      · injection hv with hv; subst hv; exact absurd hc (by simp)
      · exact iRO b app hold hc
  | approveApp c a =>
    obtain ⟨app, ha, hjp, hcl, hfil, hcan, happr, hw⟩ := approveApp_ok h
    subst hw
    refine ⟨?_, ?_, ?_, ?_, ?_, ?_, ?_, ?_, ?_, ?_⟩
    · intro b app' hb
      rcases updFun_cases hb with ⟨hbk, hv⟩ | ⟨-, hold⟩
      · subst hbk; injection hv with hv; subst hv
        exact ⟨(iK b app ha).1, (iK b app ha).2⟩
      · exact iK b app' hold
    · intro b app' hb hs
      rcases updFun_cases hb with ⟨hbk, hv⟩ | ⟨-, hold⟩
      · injection hv with hv; subst hv; rfl
      · exact iSA b app' hold hs
    · intro b app' hb hs
      rcases updFun_cases hb with ⟨hbk, hv⟩ | ⟨-, hold⟩
      · injection hv with hv; subst hv; exact iSR a app ha hs
      · exact iSR b app' hold hs
    · intro b app' hb hc
      rcases updFun_cases hb with ⟨hbk, hv⟩ | ⟨-, hold⟩
      · injection hv with hv; subst hv
        exact absurd (iCS a app ha hc).2.1 (by simp [happr])
      · exact iCS b app' hold hc
    · intro b app' hb hap
      rcases updFun_cases hb with ⟨hbk, hv⟩ | ⟨-, hold⟩
      · subst hbk
        exact ⟨congrArg some (iK b app ha).1, rfl⟩
      · exact absurd (iAB b app' hold hap).2 (by simp [hfil])
    · intro f hf; rfl
    · intro hc; simp [hcan] at hc
    · rw [refundCount_append, iRC]
      simp [refundCount, hcan]
    · intro hall
      rw [releaseCount_append]
      have h0 : releaseCount [Event.applicationApproved app.applicant] = 0 := rfl
      rw [h0, Nat.add_zero]
      apply iRZ
      intro b appb hbb
      by_cases hba : b = a
      · subst hba; rw [ha] at hbb; injection hbb with hbb; subst hbb
        exact hall b { app with approved := true } (by simp [updFun])
      · exact hall b appb (by simp [updFun, hba, hbb])
    · intro b app' hb hc
      rw [releaseCount_append]
      have h0 : releaseCount [Event.applicationApproved app.applicant] = 0 := rfl
      rw [h0, Nat.add_zero]
      rcases updFun_cases hb with ⟨hbk, hv⟩ | ⟨-, hold⟩
      · injection hv with hv; subst hv
        exact absurd (iCS a app ha hc).2.1 (by simp [happr])
      · exact iRO b app' hold hc
  | submitWork c a l n =>
    obtain ⟨app, ha, hac, hjp, -, -, happr, hcomp, hw⟩ := submitWork_ok h
    subst hw
    refine ⟨?_, ?_, ?_, ?_, ?_, ?_, ?_, ?_, ?_, ?_⟩
    · intro b app' hb
      rcases updFun_cases hb with ⟨hbk, hv⟩ | ⟨-, hold⟩
      · subst hbk; injection hv with hv; subst hv
        exact ⟨(iK b app ha).1, (iK b app ha).2⟩
      · exact iK b app' hold
    · intro b app' hb hs
      rcases updFun_cases hb with ⟨hbk, hv⟩ | ⟨-, hold⟩
      · injection hv with hv; subst hv; exact happr
      · exact iSA b app' hold hs
    · intro b app' hb hs
      rcases updFun_cases hb with ⟨hbk, hv⟩ | ⟨-, hold⟩
      · injection hv with hv; subst hv; rfl
      · exact iSR b app' hold hs
    · intro b app' hb hc
      rcases updFun_cases hb with ⟨hbk, hv⟩ | ⟨-, hold⟩
      · injection hv with hv; subst hv
        exact absurd hc (by simp [hcomp])
      · exact iCS b app' hold hc
    · intro b app' hb hap
      rcases updFun_cases hb with ⟨hbk, hv⟩ | ⟨-, hold⟩
      · subst hbk; injection hv with hv; subst hv
        exact iAB b app ha happr
      · exact iAB b app' hold hap
    · exact iFF
    · exact iCO
    · rw [refundCount_append, iRC]; rfl
    · intro hall
      rw [releaseCount_append]
      have h0 : releaseCount [Event.workSubmitted app.applicant] = 0 := rfl
      rw [h0, Nat.add_zero]
      apply iRZ
      intro b appb hbb
      by_cases hba : b = a
      · subst hba; rw [ha] at hbb; injection hbb with hbb; subst hbb
        exact hcomp
      · exact hall b appb (by simp [updFun, hba, hbb])
    · intro b app' hb hc
      rw [releaseCount_append]
      have h0 : releaseCount [Event.workSubmitted app.applicant] = 0 := rfl
      rw [h0, Nat.add_zero]
      rcases updFun_cases hb with ⟨hbk, hv⟩ | ⟨-, hold⟩
      · injection hv with hv; subst hv
        exact absurd hc (by simp [hcomp])
      · exact iRO b app' hold hc
  | approveSub c a rcp rev now =>
    obtain ⟨app, ha, hjp, hcl, hsub, hcomp, hfl, hesc, hw⟩ := approveSub_ok h
    have happs : w'.apps = updFun w.apps a
        (some { app with client_review := rev, completed := true }) := by
      rw [hw]; rfl
    have hjob : w'.job = w.job := by rw [hw]; rfl
    have hev : w'.events = w.events ++ [Event.released rcp w.job.amount] := by
      rw [hw]; rfl
    have hkey : w'.jobKey = w.jobKey := by rw [hw]; rfl
    refine ⟨?_, ?_, ?_, ?_, ?_, ?_, ?_, ?_, ?_, ?_⟩
    · intro b app' hb
      rw [happs] at hb
      rw [hkey]
      rcases updFun_cases hb with ⟨hbk, hv⟩ | ⟨-, hold⟩
      · subst hbk; injection hv with hv; subst hv
        exact ⟨(iK b app ha).1, (iK b app ha).2⟩
      · exact iK b app' hold
    · intro b app' hb hs
      rw [happs] at hb
      rcases updFun_cases hb with ⟨hbk, hv⟩ | ⟨-, hold⟩
      · injection hv with hv; subst hv; exact iSA a app ha hsub
      · exact iSA b app' hold hs
    · intro b app' hb hs
      rw [happs] at hb
      rcases updFun_cases hb with ⟨hbk, hv⟩ | ⟨-, hold⟩
      · injection hv with hv; subst hv; exact iSR a app ha hsub
      · exact iSR b app' hold hs
    · intro b app' hb hc
      rw [happs] at hb
      rcases updFun_cases hb with ⟨hbk, hv⟩ | ⟨-, hold⟩
      · injection hv with hv; subst hv
        exact ⟨hsub, iSA a app ha hsub, iSR a app ha hsub⟩
      · exact iCS b app' hold hc
    · intro b app' hb hap
      rw [happs] at hb
      rw [hjob]
      rcases updFun_cases hb with ⟨hbk, hv⟩ | ⟨-, hold⟩
      · subst hbk; injection hv with hv; subst hv
        exact iAB b app ha (iSA b app ha hsub)
      · exact iAB b app' hold hap
    · intro f hf; rw [hjob] at hf ⊢; exact iFF f hf
    · rw [hjob]; exact iCO
    · rw [hev, refundCount_append, iRC, hjob]; rfl
    · intro hall
      exfalso
      have := hall a { app with client_review := rev, completed := true }
        (by rw [happs]; simp [updFun])
      simp at this
    · intro b app' hb hc
      rw [hev, releaseCount_append]
      have h1 : releaseCount [Event.released rcp w.job.amount] = 1 := rfl
      rw [h1]
      have hz : releaseCount w.events = 0 := by
        apply iRZ
        intro b' appb hbb
        by_cases hba : b' = a
        · subst hba; rw [ha] at hbb; injection hbb with hbb; subst hbb
          exact hcomp
        · by_contra hcc
          have hc2 : appb.completed = true := by
            revert hcc; cases hcompb : appb.completed <;> simp
          have h1' := (iCS b' appb hbb hc2).2.1
          have h2' := (iAB b' appb hbb h1').1
          rw [hfl] at h2'
          injection h2' with h2'
          exact hba (h2'.symm.trans (iK a app ha).1)
      rw [hz]
  | rejectSub c a rev =>
    obtain ⟨app, ha, hjp, hcl, hfl, hcomp, hsub, hw⟩ := rejectSub_ok h
    subst hw
    refine ⟨?_, ?_, ?_, ?_, ?_, ?_, ?_, ?_, ?_, ?_⟩
    · intro b app' hb
      rcases updFun_cases hb with ⟨hbk, hv⟩ | ⟨-, hold⟩
      · subst hbk; injection hv with hv; subst hv
        exact ⟨(iK b app ha).1, (iK b app ha).2⟩
      · exact iK b app' hold
    · intro b app' hb hs
      rcases updFun_cases hb with ⟨hbk, hv⟩ | ⟨-, hold⟩
      · injection hv with hv; subst hv; exact absurd hs (by simp)
      · exact iSA b app' hold hs
    · intro b app' hb hs
      rcases updFun_cases hb with ⟨hbk, hv⟩ | ⟨-, hold⟩
      · injection hv with hv; subst hv; exact absurd hs (by simp)
      · exact iSR b app' hold hs
    · intro b app' hb hc
      rcases updFun_cases hb with ⟨hbk, hv⟩ | ⟨-, hold⟩
      · injection hv with hv; subst hv
        exact absurd hc (by simp [hcomp])
      · exact iCS b app' hold hc
    · intro b app' hb hap
      rcases updFun_cases hb with ⟨hbk, hv⟩ | ⟨-, hold⟩
      · subst hbk; injection hv with hv; subst hv
        exact iAB b app ha (iSA b app ha hsub)
      · exact iAB b app' hold hap
    · exact iFF
    · exact iCO
    · exact iRC
    · intro hall
      apply iRZ
      intro b appb hbb
      by_cases hba : b = a
      · subst hba; rw [ha] at hbb; injection hbb with hbb; subst hbb
        exact hcomp
      · exact hall b appb (by simp [updFun, hba, hbb])
    · intro b app' hb hc
      rcases updFun_cases hb with ⟨hbk, hv⟩ | ⟨-, hold⟩
      · injection hv with hv; subst hv
        exact absurd hc (by simp [hcomp])
      · exact iRO b app' hold hc
  | cancelJob c =>
    obtain ⟨hcl, hfil, hcan, hesc, hw⟩ := cancelJob_ok h
    subst hw
    refine ⟨?_, ?_, ?_, ?_, ?_, ?_, ?_, ?_, ?_, ?_⟩
    · exact iK
    · exact iSA
    · exact iSR
    · exact iCS
    · intro b app' hb hap
      exact absurd (iAB b app' hb hap).2 (by simp [hfil])
    · intro f hf
      exact absurd (iFF f hf) (by simp [hfil])
    · intro _
      refine ⟨hfil, ?_⟩
      cases hff : w.job.freelancer with
      | none => exact rfl
      | some f => exact absurd (iFF f hff) (by simp [hfil])
    · rw [refundCount_append, iRC]
      simp [refundCount, hcan]
    · intro hall
      rw [releaseCount_append]
      have h0 : releaseCount [Event.refunded c w.job.amount] = 0 := rfl
      rw [h0, Nat.add_zero]
      exact iRZ hall
    · intro b app' hb hc
      rw [releaseCount_append]
      have h0 : releaseCount [Event.refunded c w.job.amount] = 0 := rfl
      rw [h0, Nat.add_zero]
      exact iRO b app' hb hc

/-- Reachability is transitive. -/
theorem reachable_trans {w1 w2 w3 : World} (h12 : Reachable w1 w2)
    (h23 : Reachable w2 w3) : Reachable w1 w3 := by
  induction h23 with
  | refl => exact h12
  | step _ hok ih => exact .step ih hok

/-- Monotone facts along any reachable path. -/
theorem reach_mono {w w' : World} (h : Reachable w w') :
    w'.jobKey = w.jobKey ∧ w'.job.client = w.job.client ∧
    w'.job.amount = w.job.amount ∧
    (w.job.cancelled = true → w'.job.cancelled = true) ∧
    (w.job.is_filled = true → w'.job.is_filled = true) ∧
    (∀ a app, w.apps a = some app → ∃ app', w'.apps a = some app' ∧
       app'.applicant = app.applicant ∧ app'.job_post = app.job_post ∧
       (app.approved = true → app'.approved = true) ∧
       (app.completed = true → app'.completed = true)) := by
  induction h with
  | refl =>
    exact ⟨rfl, rfl, rfl, fun x => x, fun x => x,
      fun a app ha => ⟨app, ha, rfl, rfl, fun x => x, fun x => x⟩⟩
  | step _ hok ih =>
    obtain ⟨e1, e2, e3, e4, e5, e6⟩ := ih
    obtain ⟨f1, f2, f3, f4, f5, f6⟩ := step_mono hok
    refine ⟨f1.trans e1, f2.trans e2, f3.trans e3,
      fun hc => f4 (e4 hc), fun hf => f5 (e5 hf), ?_⟩
    intro a app ha
    obtain ⟨app1, ha1, g1, g2, g3, g4⟩ := e6 a app ha
    obtain ⟨app2, ha2, k1, k2, k3, k4, -⟩ := f6 a app1 ha1
    exact ⟨app2, ha2, k1.trans g1, k2.trans g2,
      fun x => k3 (g3 x), fun x => k4 (g4 x)⟩

/-- Every world reachable from a posted world satisfies the invariant. -/
theorem inv_reachable {w0 w : World} (h0 : PostedWorld w0)
    (h : Reachable w0 w) : Inv w := by
  induction h with
  | refl => exact inv_posted h0
  | step _ hok ih => exact inv_step ih hok

/-! Failure lemmas -/

theorem runOp_ok_of_fst {w : World} {op : Op}
    (h : (runOpRaw w op).1 = none) :
    runOp w op = .ok (runOpRaw w op).2 := by
  cases hr : runOpRaw w op with
  | mk e ww =>
    rw [hr] at h
    simp at h
    subst h
    simp [runOp, hr]

theorem runOp_error_of_fst {w : World} {op : Op} {e : Err}
    (h : (runOpRaw w op).1 = some e) : runOp w op = .error e := by
  cases hr : runOpRaw w op with
  | mk e' ww =>
    rw [hr] at h
    simp at h
    subst h
    simp [runOp, hr]

/-- Once a job is cancelled, no `approve_application` call can succeed. -/
theorem approveApp_fails_cancelled {w : World}
    (hc : w.job.cancelled = true) (c a : Pubkey) :
    ∃ e, runOp w (.approveApp c a) = .error e := by
  cases hr : runOp w (.approveApp c a) with
  | ok w' =>
    obtain ⟨app, -, -, -, -, hcan, -, -⟩ := approveApp_ok hr
    rw [hc] at hcan
    cases hcan
  | error e => exact ⟨e, rfl⟩

/-- Once a job is cancelled, no further `cancel_job` call can succeed. -/
theorem cancelJob_fails_cancelled {w : World}
    (hc : w.job.cancelled = true) (c : Pubkey) :
    ∃ e, runOp w (.cancelJob c) = .error e := by
  cases hr : runOp w (.cancelJob c) with
  | ok w' =>
    obtain ⟨-, -, hcan, -, -⟩ := cancelJob_ok hr
    rw [hc] at hcan
    cases hcan
  | error e => exact ⟨e, rfl⟩

/-- On a filled job, no `cancel_job` call can succeed. -/
theorem cancelJob_fails_filled {w : World}
    (hf : w.job.is_filled = true) (c : Pubkey) :
    ∃ e, runOp w (.cancelJob c) = .error e := by
  cases hr : runOp w (.cancelJob c) with
  | ok w' =>
    obtain ⟨-, hfil, -, -, -⟩ := cancelJob_ok hr
    rw [hf] at hfil
    cases hfil
  | error e => exact ⟨e, rfl⟩

/-- With no bound freelancer, no `approve_submission` call can succeed. -/
theorem approveSub_fails_unbound {w : World}
    (hn : w.job.freelancer = none) (c a rcp : Pubkey) (rev : String)
    (now : Int) : ∃ e, runOp w (.approveSub c a rcp rev now) = .error e := by
  cases hr : runOp w (.approveSub c a rcp rev now) with
  | ok w' =>
    obtain ⟨app, -, -, -, -, -, hfl, -, -⟩ := approveSub_ok hr
    rw [hn] at hfl
    cases hfl
  | error e => exact ⟨e, rfl⟩

/-- In an invariant world holding a completed application, no
`approve_submission` call (on any application of the job) can
succeed. -/
theorem approveSub_fails_completed {w : World} (hI : Inv w)
    {a : Pubkey} {app : Application} (ha : w.apps a = some app)
    (hc : app.completed = true) (c a' rcp : Pubkey) (rev : String)
    (now : Int) :
    ∃ e, runOp w (.approveSub c a' rcp rev now) = .error e := by
  cases hr : runOp w (.approveSub c a' rcp rev now) with
  | ok w' =>
    exfalso
    obtain ⟨app', ha', -, -, -, hcomp', hfl, -, -⟩ := approveSub_ok hr
    have h1 : w.job.freelancer = some a :=
      (hI.approvedBound a app ha (hI.compSub a app ha hc).2.1).1
    have h2 : app'.applicant = a' := (hI.appKeys a' app' ha').1
    rw [h1, h2] at hfl
    injection hfl with hfl
    subst hfl
    rw [ha] at ha'
    injection ha' with ha'
    subst ha'
    rw [hc] at hcomp'
    cases hcomp'
  | error e => exact ⟨e, rfl⟩

/-! Claim theorems -/

/-- C8. Every operation is all-or-nothing with respect to typed
failures: whenever a call returns one of the program's `ErrorCode`
errors, every validation ran before any mutation, so the state at the
call's exit point is exactly the pre-call state (and `post_job` has
created nothing).  Only the runtime-level failures (`insufficientFunds`
inside `cancel_job`/`post_job`) can exit with a mutated interim state —
and a failed transaction's interim state is discarded wholesale by the
ledger (`runOp`). -/
theorem C8_typed_failure_leaves_state_unchanged :
    (∀ (w : World) (op : Op) (e : ErrorCode),
      (runOpRaw w op).1 = some (.ec e) → (runOpRaw w op).2 = w) ∧
    (∀ (ck jk : Pubkey) (bal : Pubkey → Nat) (st : Pubkey → UserStats)
      (t d : String) (amt : Nat) (sd ed now : Int) (rm : Nat)
      (e : ErrorCode),
      (post_job ck jk bal st t d amt sd ed now rm).1 = some (.ec e) →
      (post_job ck jk bal st t d amt sd ed now rm).2 = none) := by
  constructor
  · intro w op e h
    cases op with
    | applyJob f r e' =>
      simp only [runOpRaw, apply_to_job] at h ⊢
      split_ifs at h ⊢ <;> simp_all
    | approveApp c a =>
      simp only [runOpRaw, approve_application] at h ⊢
      cases ha : w.apps a <;> simp only [ha] at h ⊢
      split_ifs at h ⊢ <;> simp_all
    | submitWork c a l n =>
      simp only [runOpRaw, submit_work] at h ⊢
      cases ha : w.apps a <;> simp only [ha] at h ⊢
      split_ifs at h ⊢ <;> simp_all
    | approveSub c a rcp rev now =>
      simp only [runOpRaw, approve_submission] at h ⊢
      cases ha : w.apps a <;> simp only [ha] at h ⊢
      split_ifs at h ⊢ <;> simp_all [approve_submission_commit]
    | rejectSub c a rev =>
      simp only [runOpRaw, reject_submission] at h ⊢
      cases ha : w.apps a <;> simp only [ha] at h ⊢
      split_ifs at h ⊢ <;> simp_all
    | cancelJob c =>
      simp only [runOpRaw, cancel_job] at h ⊢
      split_ifs at h ⊢ <;> simp_all
  · intro ck jk bal st t d amt sd ed now rm e h
    simp only [post_job] at h ⊢
    split_ifs at h ⊢ <;> simp_all

/-- C3. `approve_application` succeeds exactly once per job: a
successful call marks the application approved, sets `is_filled`, and
binds `job.freelancer` to the applicant; from the resulting state, and
from every state reachable from it, an `approve_application` call by
the job's client on any existing application of the job — the same one
or a different one — fails with `JobAlreadyFilled`. -/
theorem C3_approve_application_exactly_once {w w' : World} {c a : Pubkey}
    (h : runOp w (.approveApp c a) = .ok w') :
    (∃ app, w.apps a = some app ∧
      w'.apps a = some { app with approved := true } ∧
      w'.job.is_filled = true ∧
      w'.job.freelancer = some app.applicant) ∧
    (∀ w₂, Reachable w' w₂ → ∀ a₂ app₂, w₂.apps a₂ = some app₂ →
      app₂.job_post = w₂.jobKey →
      runOp w₂ (.approveApp w₂.job.client a₂) =
        .error (.ec .JobAlreadyFilled)) := by
  obtain ⟨app, ha, hjp, hcl, hfil, hcan, happr, hw⟩ := approveApp_ok h
  constructor
  · exact ⟨app, ha, by rw [hw]; simp [updFun], by rw [hw], by rw [hw]⟩
  · intro w₂ hreach a₂ app₂ ha₂ hjp₂
    have hfil₂ : w₂.job.is_filled = true :=
      (reach_mono hreach).2.2.2.2.1 (by rw [hw])
    apply runOp_error_of_fst
    simp [runOpRaw, approve_application, ha₂, hjp₂, hfil₂]

/-- C9. `submit_work` does not guard on `submitted`: for an
approved, uncompleted application whose work is already submitted, a
second call by the bound applicant with non-empty inputs succeeds and
silently overwrites the stored `submission_link` and `narration`
(re-setting `submitted`, clearing `rejected`). -/
theorem C9_resubmission_overwrites {w : World} {a : Pubkey}
    {app : Application} {l n : String}
    (ha : w.apps a = some app) (hac : app.applicant = a)
    (hjp : app.job_post = w.jobKey)
    (happr : app.approved = true) (hcomp : app.completed = false)
    (hsub : app.submitted = true)
    (hl : l ≠ "") (hn : n ≠ "") :
    ∃ w', runOp w (.submitWork a a l n) = .ok w' ∧
      w'.apps a = some { app with
        submission_link := l, narration := n,
        submitted := true, rejected := false } := by
  have hf : (runOpRaw w (.submitWork a a l n)).1 = none := by
    simp [runOpRaw, submit_work, ha, hac, hjp, hl, hn, happr, hcomp]
  refine ⟨_, runOp_ok_of_fst hf, ?_⟩
  simp [runOpRaw, submit_work, ha, hac, hjp, hl, hn, happr, hcomp, updFun]

/-- C10. `reject_submission` additionally requires the job's bound
freelancer to be the application's applicant (the `RejectSubmission`
account constraint at src line 532): with any other binding the call
fails `Unauthorized` even when the caller is the job's client and the
application is submitted and uncompleted. -/
theorem C10_reject_requires_bound_freelancer {w : World} {a : Pubkey}
    {app : Application} {rev : String}
    (ha : w.apps a = some app) (hjp : app.job_post = w.jobKey)
    (hnb : w.job.freelancer ≠ some app.applicant)
    (hsub : app.submitted = true) (hcomp : app.completed = false) :
    runOp w (.rejectSub w.job.client a rev) =
      .error (.ec .Unauthorized) := by
  apply runOp_error_of_fst
  simp [runOpRaw, reject_submission, ha, hjp, hnb]

/-- C4 (amended). `cancel_job` by the client on a filled job fails
`JobAlreadyFilled`; on an unfilled, already-cancelled job it fails
`JobAlreadyCancelled`; on an eligible job (client caller, not filled,
not cancelled, escrow covering the amount) it succeeds, sets
`cancelled = true`, refunds exactly the original `amount` to the
client, and decreases the Vault's balance by exactly `amount` — which
does *not* leave the Vault at zero for worlds created by `post_job`,
since posting over-funds the vault (see the counterexample). -/
theorem C4_cancel_behaviour {w : World} {c : Pubkey}
    (hcl : w.job.client = c) :
    (w.job.is_filled = true →
      runOp w (.cancelJob c) = .error (.ec .JobAlreadyFilled)) ∧
    (w.job.is_filled = false → w.job.cancelled = true →
      runOp w (.cancelJob c) = .error (.ec .JobAlreadyCancelled)) ∧
    (w.job.is_filled = false → w.job.cancelled = false →
      w.job.amount ≤ w.escrow →
      ∃ w', runOp w (.cancelJob c) = .ok w' ∧
        w'.job.cancelled = true ∧
        w'.balances c = w.balances c + w.job.amount ∧
        w'.escrow = w.escrow - w.job.amount) := by
  refine ⟨?_, ?_, ?_⟩
  · intro hfil
    apply runOp_error_of_fst
    simp [runOpRaw, cancel_job, hcl, hfil]
  · intro hfil hcan
    apply runOp_error_of_fst
    simp [runOpRaw, cancel_job, hcl, hfil, hcan]
  · intro hfil hcan hesc
    have hf : (runOpRaw w (.cancelJob c)).1 = none := by
      simp [runOpRaw, cancel_job, hcl, hfil, hcan, Nat.not_lt.mpr hesc]
    refine ⟨_, runOp_ok_of_fst hf, ?_, ?_, ?_⟩ <;>
      simp [runOpRaw, cancel_job, hcl, hfil, hcan, updFun, Nat.not_lt.mpr hesc]

/-- C2 (amended). A valid `post` call succeeds, but the Vault's
balance immediately after equals `max rentMin amount + amount` — the
`create_account` funding (src line 49, `minimum_balance(0).max(amount)`)
*plus* the escrow transfer of `amount` (line 74) — not `amount`; the
client's balance decreases by exactly that same total, and no other
balance changes. -/
theorem C2_post_escrow_balance {ck jk : Pubkey} {bal : Pubkey → Nat}
    {st : Pubkey → UserStats} {t d : String} {amt : Nat}
    {sd ed now : Int} {rm : Nat}
    (ht : t ≠ "") (hd : d ≠ "") (hamt : 0 < amt) (hse : sd ≤ ed)
    (hns : now ≤ sd) (hbal : max rm amt + amt ≤ bal ck) :
    (post_job ck jk bal st t d amt sd ed now rm).1 = none ∧
    ∀ w, (post_job ck jk bal st t d amt sd ed now rm).2 = some w →
      w.escrow = max rm amt + amt ∧
      w.balances ck = bal ck - (max rm amt + amt) ∧
      ∀ k, k ≠ ck → w.balances k = bal k := by
  have h1 : (post_job ck jk bal st t d amt sd ed now rm).1 = none := by
    have e3 : ¬ (amt = 0) := by omega
    have e4 : ¬ (ed < sd) := by omega
    have e5 : ¬ (sd < now) := by omega
    have e6 : ¬ (bal ck < max rm amt) := by omega
    have e7 : ¬ (bal ck - max rm amt < amt) := by omega
    simp [post_job, ht, hd, e3, e4, e5, e6, e7, updFun]
  refine ⟨h1, ?_⟩
  intro w hw
  obtain ⟨-, -, -, -, -, -, -, -, -, hesc, hbc, hbo, -⟩ := post_ok h1 hw
  exact ⟨hesc, hbc, hbo⟩

/-- C6 (amended). Starting from an approved, submitted, uncompleted
application bound as the job's freelancer, the sequence
`reject_submission`, `submit_work`, `approve_submission` succeeds (each
call's preconditions hold at its turn), and the final
`approve_submission` pays exactly `job.amount` to the freelancer while
decreasing the Vault's balance by exactly `amount` — not the Vault's
entire balance, and not down to zero for posted worlds (the vault holds
more than `amount` from creation; see the counterexample). -/
theorem C6_reject_resubmit_approve {w : World} {a : Pubkey}
    {app : Application} {rev1 l n rev2 : String} {now : Int}
    (ha : w.apps a = some app) (hac : app.applicant = a)
    (hjp : app.job_post = w.jobKey)
    (happr : app.approved = true) (hsub : app.submitted = true)
    (hcomp : app.completed = false)
    (hfl : w.job.freelancer = some a)
    (hl : l ≠ "") (hn : n ≠ "")
    (hesc : w.job.amount ≤ w.escrow) :
    ∃ w1 w2 w3,
      runOp w (.rejectSub w.job.client a rev1) = .ok w1 ∧
      runOp w1 (.submitWork a a l n) = .ok w2 ∧
      runOp w2 (.approveSub w2.job.client a a rev2 now) = .ok w3 ∧
      w3.balances a = w.balances a + w.job.amount ∧
      w3.escrow = w.escrow - w.job.amount := by
  have hfl' : w.job.freelancer = some app.applicant := by
    rw [hac]; exact hfl
  have h1f : (runOpRaw w (.rejectSub w.job.client a rev1)).1 = none := by
    simp [runOpRaw, reject_submission, ha, hjp, hfl', hcomp, hsub]
  have h1 := runOp_ok_of_fst h1f
  have ha1 : (runOpRaw w (.rejectSub w.job.client a rev1)).2.apps a =
      some { app with client_review := rev1, rejected := true, submitted := false } := by
    simp [runOpRaw, reject_submission, ha, hjp, hfl', hcomp, hsub, updFun]
  have hj1 : (runOpRaw w (.rejectSub w.job.client a rev1)).2.job = w.job := by
    simp [runOpRaw, reject_submission, ha, hjp, hfl', hcomp, hsub]
  have hk1 : (runOpRaw w (.rejectSub w.job.client a rev1)).2.jobKey = w.jobKey := by
    simp [runOpRaw, reject_submission, ha, hjp, hfl', hcomp, hsub]
  have he1 : (runOpRaw w (.rejectSub w.job.client a rev1)).2.escrow = w.escrow := by
    simp [runOpRaw, reject_submission, ha, hjp, hfl', hcomp, hsub]
  have hb1 : (runOpRaw w (.rejectSub w.job.client a rev1)).2.balances = w.balances := by
    simp [runOpRaw, reject_submission, ha, hjp, hfl', hcomp, hsub]
  obtain ⟨W1, hg1⟩ : ∃ x, (runOpRaw w (.rejectSub w.job.client a rev1)).2 = x :=
    ⟨_, rfl⟩
  rw [hg1] at h1 ha1 hj1 hk1 he1 hb1
  have h2f : (runOpRaw W1 (.submitWork a a l n)).1 = none := by
    simp [runOpRaw, submit_work, ha1, hac, hk1, hjp, hl, hn, happr, hcomp]
  have h2 := runOp_ok_of_fst h2f
  have ha2 : (runOpRaw W1 (.submitWork a a l n)).2.apps a =
      some { app with client_review := rev1, submission_link := l, narration := n, submitted := true, rejected := false } := by
    simp [runOpRaw, submit_work, ha1, hac, hk1, hjp, hl, hn, happr, hcomp, updFun]
  have hj2 : (runOpRaw W1 (.submitWork a a l n)).2.job = w.job := by
    simp [runOpRaw, submit_work, ha1, hac, hk1, hjp, hl, hn, happr, hcomp, hj1]
  have hk2 : (runOpRaw W1 (.submitWork a a l n)).2.jobKey = w.jobKey := by
    simp [runOpRaw, submit_work, ha1, hac, hk1, hjp, hl, hn, happr, hcomp]
  have he2 : (runOpRaw W1 (.submitWork a a l n)).2.escrow = w.escrow := by
    simp [runOpRaw, submit_work, ha1, hac, hk1, hjp, hl, hn, happr, hcomp, he1]
  have hb2 : (runOpRaw W1 (.submitWork a a l n)).2.balances = w.balances := by
    simp [runOpRaw, submit_work, ha1, hac, hk1, hjp, hl, hn, happr, hcomp, hb1]
  obtain ⟨W2, hg2⟩ : ∃ x, (runOpRaw W1 (.submitWork a a l n)).2 = x := ⟨_, rfl⟩
  rw [hg2] at h2 ha2 hj2 hk2 he2 hb2
  have hne : ¬ W2.escrow < w.job.amount := by
    rw [he2]; exact Nat.not_lt.mpr hesc
  have h3f : (runOpRaw W2 (.approveSub W2.job.client a a rev2 now)).1 = none := by
    simp [runOpRaw, approve_submission, approve_submission_commit, ha2,
      hjp, hk2, hj2, hac, hfl, hne, hcomp]
  have h3 := runOp_ok_of_fst h3f
  have hbal3 : (runOpRaw W2 (.approveSub W2.job.client a a rev2 now)).2.balances a =
      w.balances a + w.job.amount := by
    simp [runOpRaw, approve_submission, approve_submission_commit, ha2,
      hjp, hk2, hj2, hac, hfl, hne, Nat.not_lt.mpr hesc, hcomp, hb2, updFun]
  have hesc3 : (runOpRaw W2 (.approveSub W2.job.client a a rev2 now)).2.escrow =
      w.escrow - w.job.amount := by
    simp [runOpRaw, approve_submission, approve_submission_commit, ha2,
      hjp, hk2, hj2, hac, hfl, hne, Nat.not_lt.mpr hesc, hcomp, he2]
  exact ⟨W1, W2, _, h1, h2, h3, hbal3, hesc3⟩

/-- C1. Escrowed funds leave the Vault through at most one of the
two transitions, at most once.  After a successful `cancel_job`, in
every later reachable state `approve_application` fails (hence so does
`approve_submission`) and a second `cancel_job` fails; after a
successful `approve_submission`, in every later reachable state the job
is filled, a second `approve_submission` fails, and `cancel_job` fails;
and in every reachable state the ghost outflow log contains at most one
outflow in total — so a release to the freelancer and a refund to the
client never both occur for the same job. -/
theorem C1_escrow_single_exit {w0 : World} (hp : PostedWorld w0) :
    (∀ w w' c, Reachable w0 w → runOp w (.cancelJob c) = .ok w' →
      ∀ w'', Reachable w' w'' →
        (∀ c2 a2, ∃ e, runOp w'' (.approveApp c2 a2) = .error e) ∧
        (∀ c2 a2 r2 rev2 n2, ∃ e,
          runOp w'' (.approveSub c2 a2 r2 rev2 n2) = .error e) ∧
        (∀ c2, ∃ e, runOp w'' (.cancelJob c2) = .error e)) ∧
    (∀ w w' c a rcp rev now, Reachable w0 w →
      runOp w (.approveSub c a rcp rev now) = .ok w' →
      ∀ w'', Reachable w' w'' →
        w''.job.is_filled = true ∧
        (∀ c2 a2 r2 rev2 n2, ∃ e,
          runOp w'' (.approveSub c2 a2 r2 rev2 n2) = .error e) ∧
        (∀ c2, ∃ e, runOp w'' (.cancelJob c2) = .error e)) ∧
    (∀ w, Reachable w0 w →
      releaseCount w.events + refundCount w.events ≤ 1) := by
  refine ⟨?_, ?_, ?_⟩
  · intro w w' c hr hc w'' hr''
    have hreach'' : Reachable w0 w'' :=
      reachable_trans (Reachable.step hr hc) hr''
    have hI'' := inv_reachable hp hreach''
    have hcan' : w'.job.cancelled = true := by
      obtain ⟨-, -, -, -, hw⟩ := cancelJob_ok hc
      rw [hw]
    have hcan'' : w''.job.cancelled = true :=
      (reach_mono hr'').2.2.2.1 hcan'
    refine ⟨fun c2 a2 => approveApp_fails_cancelled hcan'' c2 a2, ?_, ?_⟩
    · intro c2 a2 r2 rev2 n2
      exact approveSub_fails_unbound (hI''.cancelledOpen hcan'').2
        c2 a2 r2 rev2 n2
    · exact fun c2 => cancelJob_fails_cancelled hcan'' c2
  · intro w w' c a rcp rev now hr hs w'' hr''
    have hreach'' : Reachable w0 w'' :=
      reachable_trans (Reachable.step hr hs) hr''
    have hI'' := inv_reachable hp hreach''
    obtain ⟨app, ha, -, -, -, -, -, -, hw⟩ := approveSub_ok hs
    have ha' : w'.apps a =
        some { app with client_review := rev, completed := true } := by
      rw [hw]
      simp [approve_submission_commit, updFun]
    obtain ⟨app'', ha'', -, -, -, hcomp''⟩ :=
      (reach_mono hr'').2.2.2.2.2 a _ ha'
    have hcompTrue : app''.completed = true := hcomp'' rfl
    have hfil'' : w''.job.is_filled = true :=
      (hI''.approvedBound a app'' ha''
        (hI''.compSub a app'' ha'' hcompTrue).2.1).2
    refine ⟨hfil'', ?_, fun c2 => cancelJob_fails_filled hfil'' c2⟩
    intro c2 a2 r2 rev2 n2
    exact approveSub_fails_completed hI'' ha'' hcompTrue c2 a2 r2 rev2 n2
  · intro w hr
    have hI := inv_reachable hp hr
    by_cases hex : ∃ a app, w.apps a = some app ∧ app.completed = true
    · obtain ⟨a, app, ha, hc⟩ := hex
      have hrel : releaseCount w.events = 1 := hI.releaseOne a app ha hc
      have hnc : w.job.cancelled = false := by
        by_contra hcc
        have hcc' : w.job.cancelled = true := by
          revert hcc; cases w.job.cancelled <;> simp
        have h1 := (hI.cancelledOpen hcc').2
        have h2 := (hI.approvedBound a app ha
          (hI.compSub a app ha hc).2.1).1
        rw [h1] at h2
        cases h2
      have href : refundCount w.events = 0 := by
        rw [hI.refundCnt, hnc]
        rfl
      omega
    · have hrel : releaseCount w.events = 0 := by
        apply hI.releaseZero
        intro a app ha
        by_contra hcc
        exact hex ⟨a, app, ha, by revert hcc; cases app.completed <;> simp⟩
      have href : refundCount w.events ≤ 1 := by
        rw [hI.refundCnt]
        cases w.job.cancelled <;> simp
      omega

/-- C5. After a successful `approve_submission` on an application,
in the resulting state and every state reachable from it, any further
`approve_submission` or `reject_submission` call on that same
application by the job's client fails with `WorkAlreadyApproved`. -/
theorem C5_no_review_after_completion {w0 w w' : World}
    {c a rcp : Pubkey} {rev : String} {now : Int}
    (hp : PostedWorld w0) (hr : Reachable w0 w)
    (h : runOp w (.approveSub c a rcp rev now) = .ok w') :
    ∀ w'', Reachable w' w'' → ∀ (rcp2 : Pubkey) (rev2 : String)
      (now2 : Int) (rev3 : String),
      runOp w'' (.approveSub w''.job.client a rcp2 rev2 now2) =
        .error (.ec .WorkAlreadyApproved) ∧
      runOp w'' (.rejectSub w''.job.client a rev3) =
        .error (.ec .WorkAlreadyApproved) := by
  intro w'' hr'' rcp2 rev2 now2 rev3
  have hreach'' : Reachable w0 w'' :=
    reachable_trans (Reachable.step hr h) hr''
  have hI'' := inv_reachable hp hreach''
  obtain ⟨app, ha, -, -, -, -, -, -, hw⟩ := approveSub_ok h
  have ha' : w'.apps a =
      some { app with client_review := rev, completed := true } := by
    rw [hw]
    simp [approve_submission_commit, updFun]
  obtain ⟨app'', ha'', -, -, -, hcomp''⟩ :=
    (reach_mono hr'').2.2.2.2.2 a _ ha'
  have hcompTrue : app''.completed = true := hcomp'' rfl
  have hjp'' : app''.job_post = w''.jobKey := (hI''.appKeys a app'' ha'').2
  have hap'' : app''.applicant = a := (hI''.appKeys a app'' ha'').1
  have hsub'' : app''.submitted = true :=
    (hI''.compSub a app'' ha'' hcompTrue).1
  have hfl'' : w''.job.freelancer = some a :=
    (hI''.approvedBound a app'' ha''
      (hI''.compSub a app'' ha'' hcompTrue).2.1).1
  constructor
  · apply runOp_error_of_fst
    simp [runOpRaw, approve_submission, ha'', hjp'', hsub'', hcompTrue]
  · apply runOp_error_of_fst
    simp [runOpRaw, reject_submission, ha'', hjp'', hap'', hfl'', hcompTrue]

/-- C7. In every state reachable from a posted world, every
existing application satisfies `completed ⇒ submitted ∧ approved ∧
¬rejected`; and along any further reachable path the application
persists with `completed` and `approved` monotone (once true, they stay
true under every further operation). -/
theorem C7_application_invariants {w0 w : World} (hp : PostedWorld w0)
    (hr : Reachable w0 w) :
    ∀ a app, w.apps a = some app →
      (app.completed = true →
        app.submitted = true ∧ app.approved = true ∧
        app.rejected = false) ∧
      (∀ w', Reachable w w' → ∃ app', w'.apps a = some app' ∧
        (app.completed = true → app'.completed = true) ∧
        (app.approved = true → app'.approved = true)) := by
  intro a app ha
  have hI := inv_reachable hp hr
  refine ⟨hI.compSub a app ha, ?_⟩
  intro w' hr'
  obtain ⟨app', ha', -, -, happmono, hcompmono⟩ :=
    (reach_mono hr').2.2.2.2.2 a app ha
  exact ⟨app', ha', hcompmono, happmono⟩

theorem some_getD {α : Type} {o : Option α} {d : α}
    (h : o.isSome = true) : some (o.getD d) = o := by
  cases o with
  | none => cases h
  | some a => rfl

theorem post_w0C_snd :
    (post_job 1 100 bal0 st0 "t" "d" 1000 10 20 0 0).2 = some w0C :=
  (some_getD (d := wDefault)
    (o := (post_job 1 100 bal0 st0 "t" "d" 1000 10 20 0 0).2) rfl).symm

theorem posted_w0C : PostedWorld w0C :=
  ⟨1, 100, bal0, st0, "t", "d", 1000, 10, 20, 0, 0, rfl, post_w0C_snd⟩












theorem reach_wS : Reachable w0C wS :=
  .step (.step (.step (.refl w0C)
    (@runOp_ok_of_fst w0C (.applyJob 2 "r" 5) rfl))
    (@runOp_ok_of_fst wA (.approveApp 1 2) rfl))
    (@runOp_ok_of_fst wB (.submitWork 2 2 "s" "n") rfl)

/-! Witnesses and counterexamples -/

/-- Witness for C1: concretely, after cancelling the posted job,
`approve_application` and a second `cancel_job` fail, and the posted
world's outflow count is at most one. -/
theorem C1_witness :
    (∃ e, runOp wCan (.approveApp 1 2) = .error e) ∧
    (∃ e, runOp wCan (.cancelJob 1) = .error e) ∧
    releaseCount w0C.events + refundCount w0C.events ≤ 1 := by
  have hc : runOp w0C (.cancelJob 1) = .ok wCan :=
    runOp_ok_of_fst rfl
  obtain ⟨p1, p2, p3⟩ := C1_escrow_single_exit posted_w0C
  obtain ⟨q1, q2, q3⟩ := p1 w0C wCan 1 (.refl w0C) hc wCan (.refl wCan)
  exact ⟨q1 1 2, q3 1, p3 w0C (.refl w0C)⟩

/-- Witness for C2 (amended) at the concrete post call. -/
theorem C2_witness :
    w0C.escrow = max 0 1000 + 1000 ∧
    w0C.balances 1 = bal0 1 - (max 0 1000 + 1000) := by
  have h := (@C2_post_escrow_balance 1 100 bal0 st0 "t" "d" 1000 10 20
    0 0 (by decide) (by decide) (by decide) (by decide) (by decide)
    (by decide)).2 w0C post_w0C_snd
  exact ⟨h.1, h.2.1⟩

/-- Counterexample to C2 as stated: the valid concrete post locks 2000
lamports in the vault (and the client pays 2000), not the job's
`amount = 1000`. -/
theorem C2_counterexample :
    (post_job 1 100 bal0 st0 "t" "d" 1000 10 20 0 0).1 = none ∧
    w0C.escrow = 2000 ∧ w0C.escrow ≠ 1000 ∧
    bal0 1 - w0C.balances 1 = 2000 := by decide

/-- Witness for C3: approving `2`'s application fills the job, and a
second approval attempt on the same job fails `JobAlreadyFilled`. -/
theorem C3_witness :
    wB.job.is_filled = true ∧
    runOp wB (.approveApp wB.job.client 2) =
      .error (.ec .JobAlreadyFilled) := by
  have h : runOp wA (.approveApp 1 2) = .ok wB := runOp_ok_of_fst rfl
  obtain ⟨heff, hsub⟩ := C3_approve_application_exactly_once h
  obtain ⟨app, -, -, hfil, -⟩ := heff
  exact ⟨hfil, hsub wB (.refl wB) 2 ⟨2, 100, "r", "", "", "", true,
    false, false, false, 5⟩ rfl rfl⟩

/-- Witness for C4 (amended): the eligible concrete cancel succeeds,
refunds exactly 1000 to the client and decreases the vault by 1000. -/
theorem C4_witness :
    runOp w0C (.cancelJob 1) = .ok wCan ∧ wCan.job.cancelled = true ∧
    wCan.balances 1 = w0C.balances 1 + w0C.job.amount ∧
    wCan.escrow = w0C.escrow - w0C.job.amount := by
  obtain ⟨w', h1, h2, h3, h4⟩ :=
    (@C4_cancel_behaviour w0C 1 rfl).2.2 rfl rfl (by decide)
  have h0 : runOp w0C (.cancelJob 1) = .ok wCan := runOp_ok_of_fst rfl
  rw [h0] at h1
  injection h1 with h1
  subst h1
  exact ⟨h0, h2, h3, h4⟩

/-- Counterexample to C4 as stated: the eligible concrete cancel leaves
the vault holding 1000 lamports, not zero. -/
theorem C4_counterexample :
    w0C.job.client = 1 ∧ w0C.job.is_filled = false ∧
    w0C.job.cancelled = false ∧
    (runOpRaw w0C (.cancelJob 1)).1 = none ∧
    wCan.escrow = 1000 ∧ wCan.escrow ≠ 0 := by decide

/-- Witness for C5: after the concrete approval, both review calls
fail `WorkAlreadyApproved`. -/
theorem C5_witness :
    runOp wAS (.approveSub wAS.job.client 2 2 "again" 0) =
      .error (.ec .WorkAlreadyApproved) ∧
    runOp wAS (.rejectSub wAS.job.client 2 "no") =
      .error (.ec .WorkAlreadyApproved) :=
  C5_no_review_after_completion posted_w0C reach_wS
    (@runOp_ok_of_fst wS (.approveSub 1 2 2 "ok" 0) rfl)
    wAS (.refl wAS) 2 "again" 0 "no"

/-- Witness for C6 (amended): the concrete reject / resubmit / approve
sequence succeeds and moves exactly 1000 lamports to the freelancer. -/
theorem C6_witness :
    runOp wS (.rejectSub wS.job.client 2 "bad") = .ok wR ∧
    runOp wR (.submitWork 2 2 "s2" "n2") = .ok wS2 ∧
    wF.balances 2 = wS.balances 2 + wS.job.amount ∧
    wF.escrow = wS.escrow - wS.job.amount := by
  obtain ⟨w1, w2, w3, h1, h2, h3, h4, h5⟩ :=
    @C6_reject_resubmit_approve wS 2 appS "bad" "s2" "n2" "ok" 0
      rfl rfl rfl rfl rfl rfl rfl (by decide) (by decide) (by decide)
  have e1 : runOp wS (.rejectSub wS.job.client 2 "bad") = .ok wR :=
    runOp_ok_of_fst rfl
  rw [e1] at h1
  injection h1 with h1
  subst h1
  have e2 : runOp wR (.submitWork 2 2 "s2" "n2") = .ok wS2 :=
    runOp_ok_of_fst rfl
  rw [e2] at h2
  injection h2 with h2
  subst h2
  have e3 : runOp wS2 (.approveSub wS2.job.client 2 2 "ok" 0) = .ok wF :=
    runOp_ok_of_fst rfl
  rw [e3] at h3
  injection h3 with h3
  subst h3
  exact ⟨e1, e2, h4, h5⟩

/-- Counterexample to C6 as stated: the final approval pays 1000
lamports while the vault held 2000, and afterwards the vault holds
1000, not zero. -/
theorem C6_counterexample :
    (runOpRaw wS2 (.approveSub 1 2 2 "ok" 0)).1 = none ∧
    wS2.escrow = 2000 ∧
    wF.balances 2 = wS2.balances 2 + 1000 ∧
    wF.escrow = 1000 ∧ wF.escrow ≠ 0 := by decide

/-- Witness for C7 at the completed concrete application. -/
theorem C7_witness :
    appF.completed = true ∧ appF.submitted = true ∧
    appF.approved = true ∧ appF.rejected = false := by
  have hr : Reachable w0C wAS :=
    .step reach_wS (@runOp_ok_of_fst wS (.approveSub 1 2 2 "ok" 0) rfl)
  obtain ⟨hinv, -⟩ := C7_application_invariants posted_w0C hr 2 appF rfl
  obtain ⟨h1, h2, h3⟩ := hinv rfl
  exact ⟨rfl, h1, h2, h3⟩

/-- Witness for C8: a concrete typed failure (`Unauthorized` cancel by
a non-client) leaves the world untouched. -/
theorem C8_witness :
    (runOpRaw w0C (.cancelJob 99)).1 = some (.ec .Unauthorized) ∧
    (runOpRaw w0C (.cancelJob 99)).2 = w0C :=
  ⟨rfl, C8_typed_failure_leaves_state_unchanged.1 w0C (.cancelJob 99)
    .Unauthorized rfl⟩

/-- Witness for C9: the concrete second `submit_work` over a pending
submission succeeds and overwrites the stored link and narration. -/
theorem C9_witness :
    runOp wS (.submitWork 2 2 "s2" "n2") = .ok wResub ∧
    wResub.apps 2 = some { appS with
      submission_link := "s2", narration := "n2",
      submitted := true, rejected := false } := by
  obtain ⟨w', h1, h2⟩ := @C9_resubmission_overwrites wS 2 appS "s2" "n2"
    rfl rfl rfl rfl rfl rfl (by decide) (by decide)
  have e1 : runOp wS (.submitWork 2 2 "s2" "n2") = .ok wResub :=
    runOp_ok_of_fst rfl
  rw [e1] at h1
  injection h1 with h1
  subst h1
  exact ⟨e1, h2⟩

/-- Witness for C10: rejecting `3`'s submission fails `Unauthorized`
because the job's bound freelancer is `2`, even though the caller is
the client and the application is submitted and uncompleted. -/
theorem C10_witness :
    runOp w10 (.rejectSub w10.job.client 3 "no") =
      .error (.ec .Unauthorized) :=
  @C10_reject_requires_bound_freelancer w10 3
    ⟨3, 100, "r", "s", "n", "", false, true, false, false, 5⟩ "no"
    rfl rfl (by decide) rfl rfl

end LP2
